import Mathlib

/-!
Verification of the WorksteamCompassAI RAG backend.

This file gives a shallow embedding, in Lean 4, of the pure core of the
repository's Python backend (`backend/app`): the BLAKE2b-based hashing
utilities (`utils/hashing.py`), text normalization (`utils/normalize.py`),
the stage-cache key functions (`rag/cache.py`), the context compressor
(`rag/compressor.py`), the chunker (`ingest/chunking.py`), the manifest
helpers (`ingest/indexing.py`), and the orchestration logic of
`rag/pipeline.py` (ingestion planning/application and the query path).

External collaborators (the Qdrant vector index, the Redis store, the
OpenAI embedding/chat services, the langchain text splitters, and the
binary-format extractors) are modelled as explicit oracle parameters:
the embedding is faithful to the repository's own orchestration code and
quantifies over the behaviour of the collaborators.

Python `dict`/`str`/`int` values are modelled by Lean structures,
`String` and `Nat`/`Int`; machine behaviour that matters (64-bit
wrap-around inside BLAKE2b) is made explicit with `% 2^64`.
-/

set_option maxRecDepth 100000

/-! ## Python string primitives

Helpers mirroring the Python string operations the backend relies on.
`pyIsSpace` covers the ASCII whitespace class recognised by Python's
`str.split()`, `str.strip()` and the regex `\s` (the inputs in this
development are ASCII). -/

def pyIsSpace (c : Char) : Bool :=
  c = ' ' || c = '\t' || c = '\n' || c = '\r' || c = '\x0b' || c = '\x0c'

/-- Python `str.strip()` (no arguments): drop leading and trailing whitespace. -/
def pyStrip (s : String) : String :=
  String.mk (((s.data.dropWhile pyIsSpace).reverse.dropWhile pyIsSpace).reverse)

/-- Python `str.lower()` (ASCII case mapping, which is all the backend feeds it). -/
def pyLower (s : String) : String :=
  String.mk (s.data.map Char.toLower)

/-- Worker for `pySplitWs`: `cur` holds the reversed characters of the word
being scanned. -/
def pyWordsGo : List Char → List Char → List String
  | cur, [] => if cur = [] then [] else [String.mk cur.reverse]
  | cur, c :: rest =>
      if pyIsSpace c then
        if cur = [] then pyWordsGo [] rest
        else String.mk cur.reverse :: pyWordsGo [] rest
      else pyWordsGo (c :: cur) rest

/-- Python `str.split()` with no separator: maximal non-whitespace runs. -/
def pySplitWs (s : String) : List String :=
  pyWordsGo [] s.data

/-- Python `'sep'.join(parts)`. -/
def joinSep (sep : String) : List String → String
  | [] => ""
  | [x] => x
  | x :: xs => x ++ sep ++ joinSep sep xs

/-! ## BLAKE2b (`hashlib.blake2b`, `digest_size=16`)

`utils/hashing.py` hashes with `hashlib.blake2b(digest_size=16)`.  The
algorithm (RFC 7693, unkeyed, sequential mode) is embedded here over
`Nat` with explicit reduction modulo `2^64`. -/

namespace Blake2b

def mask64 : Nat := 18446744073709551615

def add64 (a b : Nat) : Nat := (a + b) % 18446744073709551616

def xor64 (a b : Nat) : Nat := Nat.xor a b

/-- Rotate a 64-bit word right by `n` (for `n < 64` and `x < 2^64`). -/
def rotr64 (x n : Nat) : Nat :=
  (x / 2 ^ n) + (x % 2 ^ n) * 2 ^ (64 - n)

def IV : List Nat :=
  [0x6a09e667f3bcc908, 0xbb67ae8584caa73b, 0x3c6ef372fe94f82b, 0xa54ff53a5f1d36f1,
   0x510e527fade682d1, 0x9b05688c2b3e6c1f, 0x1f83d9abfb41bd6b, 0x5be0cd19137e2179]

def SIGMA : List (List Nat) :=
  [[0,1,2,3,4,5,6,7,8,9,10,11,12,13,14,15],
   [14,10,4,8,9,15,13,6,1,12,0,2,11,7,5,3],
   [11,8,12,0,5,2,15,13,10,14,3,6,7,1,9,4],
   [7,9,3,1,13,12,11,14,2,6,5,10,4,0,15,8],
   [9,0,5,7,2,4,10,15,14,1,11,12,6,8,3,13],
   [2,12,6,10,0,11,8,3,4,13,7,5,15,14,1,9],
   [12,5,1,15,14,13,4,10,0,7,6,3,9,2,8,11],
   [13,11,7,14,12,1,3,9,5,0,15,4,8,6,2,10],
   [6,15,14,9,11,3,0,8,12,2,13,7,1,4,10,5],
   [10,2,8,4,7,6,1,5,15,11,9,14,3,12,13,0]]

/-- The G mixing function acting on the 16-word working vector `v`. -/
def gmix (v : List Nat) (a b c d x y : Nat) : List Nat :=
  let va := v.getD a 0
  let vb := v.getD b 0
  let vc := v.getD c 0
  let vd := v.getD d 0
  let va := add64 (add64 va vb) x
  let vd := rotr64 (xor64 vd va) 32
  let vc := add64 vc vd
  let vb := rotr64 (xor64 vb vc) 24
  let va := add64 (add64 va vb) y
  let vd := rotr64 (xor64 vd va) 16
  let vc := add64 vc vd
  let vb := rotr64 (xor64 vb vc) 63
  ((((v.set a va).set b vb).set c vc).set d vd)

def roundFn (m : List Nat) (r : Nat) (v : List Nat) : List Nat :=
  let s := SIGMA.getD (r % 10) []
  let mi := fun (i : Nat) => m.getD (s.getD i 0) 0
  let v := gmix v 0 4 8 12 (mi 0) (mi 1)
  let v := gmix v 1 5 9 13 (mi 2) (mi 3)
  let v := gmix v 2 6 10 14 (mi 4) (mi 5)
  let v := gmix v 3 7 11 15 (mi 6) (mi 7)
  let v := gmix v 0 5 10 15 (mi 8) (mi 9)
  let v := gmix v 1 6 11 12 (mi 10) (mi 11)
  let v := gmix v 2 7 8 13 (mi 12) (mi 13)
  gmix v 3 4 9 14 (mi 14) (mi 15)

/-- The BLAKE2b compression function F (12 rounds). -/
def compressF (h : List Nat) (m : List Nat) (t : Nat) (last : Bool) : List Nat :=
  let v0 := h ++ IV
  let v0 := v0.set 12 (xor64 (v0.getD 12 0) (t % 18446744073709551616))
  let v0 := v0.set 13 (xor64 (v0.getD 13 0) (t / 18446744073709551616))
  let v0 := if last then v0.set 14 (xor64 (v0.getD 14 0) mask64) else v0
  let v := (List.range 12).foldl (fun acc r => roundFn m r acc) v0
  (List.range 8).map (fun i => xor64 (xor64 (h.getD i 0) (v.getD i 0)) (v.getD (i + 8) 0))

/-- Little-endian decoding of a 128-byte block into 16 words. -/
def bytesToWords (block : List Nat) : List Nat :=
  (List.range 16).map (fun i =>
    (List.range 8).foldl (fun acc j => acc + block.getD (8 * i + j) 0 * 256 ^ j) 0)

/-- Split the message into 128-byte blocks, zero-padding the final one.
An empty message yields one all-zero block, as in RFC 7693. -/
def toBlocksGo : List Nat → List Nat → List (List Nat)
  | cur, [] => [cur ++ List.replicate (128 - cur.length) 0]
  | cur, b :: bs =>
      if 128 ≤ (cur ++ [b]).length ∧ bs ≠ [] then (cur ++ [b]) :: toBlocksGo [] bs
      else toBlocksGo (cur ++ [b]) bs

def toBlocks (msg : List Nat) : List (List Nat) :=
  toBlocksGo [] msg

/-- Process the blocks: every block but the last with an incremented byte
counter, the last with the total length and the finalization flag. -/
def processBlocks (h0 : List Nat) (blocks : List (List Nat)) (processed totalLen : Nat) : List Nat :=
  match blocks with
  | [] => h0
  | [b] => compressF h0 (bytesToWords b) totalLen true
  | b :: rest => processBlocks (compressF h0 (bytesToWords b) (processed + 128) false) rest (processed + 128) totalLen

/-- Unkeyed BLAKE2b digest of a byte sequence, truncated to `nn` bytes.
The parameter block XORs `0x01010000 + nn` into `h0` (depth 1, fanout 1,
key length 0, digest length `nn`). -/
def digestBytes (msg : List Nat) (nn : Nat) : List Nat :=
  let h0 := IV.set 0 (xor64 (IV.getD 0 0) (0x01010000 + nn))
  let hfin := processBlocks h0 (toBlocks msg) 0 msg.length
  ((hfin.map (fun w => (List.range 8).map (fun j => w / 256 ^ j % 256))).flatten).take nn

def hexDigit (n : Nat) : Char :=
  if n < 10 then Char.ofNat (48 + n) else Char.ofNat (87 + n)

/-- Lowercase hex rendering of a byte list (Python's `hexdigest()`). -/
def bytesToHex (bytes : List Nat) : String :=
  String.mk (bytes.foldr (fun b acc => hexDigit (b / 16) :: hexDigit (b % 16) :: acc) [])

end Blake2b

/-- UTF-8 encoding of a Unicode code point. -/
def utf8EncodeChar (n : Nat) : List Nat :=
  if n < 128 then [n]
  else if n < 2048 then [192 + n / 64, 128 + n % 64]
  else if n < 65536 then [224 + n / 4096, 128 + n / 64 % 64, 128 + n % 64]
  else [240 + n / 262144, 128 + n / 4096 % 64, 128 + n / 64 % 64, 128 + n % 64]

/-- Python `value.encode('utf-8')` as a byte list. -/
def utf8Bytes (s : String) : List Nat :=
  s.data.foldr (fun c acc => utf8EncodeChar c.toNat ++ acc) []

/-- `utils/hashing.py::hash_text`: `blake2b(digest_size=16)` over the UTF-8
bytes of `value`, rendered as a lowercase hex digest. -/
def hash_text (value : String) : String :=
  Blake2b.bytesToHex (Blake2b.digestBytes (utf8Bytes value) 16)

/-! ## Stage-cache keys (`rag/cache.py`) -/

/-- `cache.py::_hash_inputs`: UTF-8 join of the inputs with `'::'`, hashed. -/
def hashInputs (values : List String) : String :=
  hash_text (joinSep "::" values)

/-- `cache.py::_rewrite_key`. -/
def rewriteKey (query : String) : String :=
  "rewrite:" ++ hashInputs [query]

/-- `cache.py::_retrieve_key`: key over `[query, str(top_k)]`. -/
def retrieveKey (query : String) (top_k : Int) : String :=
  "retrieve:" ++ hashInputs [query, toString top_k]

/-- `cache.py::_compress_key`: key over `[query, *chunk_ids]`, in the order
the chunk ids are given. -/
def compressKey (query : String) (chunk_ids : List String) : String :=
  "compress:" ++ hashInputs (query :: chunk_ids)

/-- `cache.py::_answer_key`. -/
def answerKey (query model mode : String) : String :=
  "answer:" ++ hashInputs [query, model, mode]

/-! ## Retrieved chunk records and the compressor (`rag/compressor.py`)

A retrieved chunk record, as built by `RagPipeline._retrieve_chunks`
(`pipeline.py` lines 224-233): a dict with keys `chunk_id`, `content`,
`metadata` and `score`.  `Option` fields model the `dict.get` accesses the
pipeline performs on these records (`none` = key absent or `None`). -/

structure RChunk where
  chunk_id : Option String
  content : Option String
  md_chunk_id : Option String
  md_document_id : Option String
  md_filename : Option String
  md_page : Option String
  score : Int
deriving DecidableEq

/-- Python falsy-chaining `a or b` for optional strings (`None` and `''`
are falsy). -/
def pyOrStr (a : Option String) (b : String) : String :=
  match a with
  | some s => if s = "" then b else s
  | none => b

/-- `chunk.get('chunk_id') or chunk.get('metadata', {}).get('chunk_id') or 'chunk'`
(`pipeline.py` lines 242 and 270). -/
def chunkIdOf (c : RChunk) : String :=
  pyOrStr c.chunk_id (pyOrStr c.md_chunk_id "chunk")

/-- The chunk-id list `RagPipeline._compress_chunks` extracts before keying the
compression cache (`pipeline.py` lines 240-243): in retrieval order, unsorted. -/
def extractChunkIds (chunks : List RChunk) : List String :=
  chunks.map chunkIdOf

/-- The cache key the compression stage uses for a retrieved-chunk list
(`pipeline.py` line 244 with `cache.py::_compress_key`). -/
def compressStageKey (query : String) (chunks : List RChunk) : String :=
  compressKey query (extractChunkIds chunks)

/-- `compressor.py`: `len(chunk.get('content', '').split())`, the
whitespace-delimited word-count token estimate. -/
def tokenEstimate (c : RChunk) : Nat :=
  (pySplitWs (c.content.getD "")).length

/-- Total estimated tokens of a chunk list. -/
def chunkTokens (l : List RChunk) : Nat :=
  (l.map tokenEstimate).sum

/-- The loop of `compressor.py::compress_chunks` with its running token
counter: accept a chunk unless it would push the total past `max_tokens`,
and stop at the first such chunk. -/
def compressGo (max_tokens : Nat) : Nat → List RChunk → List RChunk
  | _, [] => []
  | running, c :: rest =>
      if max_tokens < running + tokenEstimate c then []
      else c :: compressGo max_tokens (running + tokenEstimate c) rest

/-- `compressor.py::compress_chunks` (`max_tokens` is used as a nonnegative
budget, matching the nonnegative `max_context_tokens` setting). -/
def compress_chunks (chunks : List RChunk) (max_tokens : Nat) : List RChunk :=
  compressGo max_tokens 0 chunks

/-! ## Query normalization (`utils/normalize.py`) -/

/-- One pass of `re.sub(r'\s+', ' ', ...)`: each maximal whitespace run
becomes a single space. -/
def collapseWsGo : Bool → List Char → List Char
  | _, [] => []
  | prevSpace, c :: rest =>
      if pyIsSpace c then
        if prevSpace then collapseWsGo true rest
        else ' ' :: collapseWsGo true rest
      else c :: collapseWsGo false rest

def collapseWs (s : String) : String :=
  String.mk (collapseWsGo false s.data)

/-- `utils/normalize.py::normalize_text`: the empty string stays empty
(`if value:`), otherwise strip, lowercase, and collapse whitespace runs. -/
def normalize_text (value : String) : String :=
  if value = "" then ""
  else collapseWs (pyLower (pyStrip value))

/-! ## Query path of `RagPipeline` (`rag/pipeline.py`)

External collaborators of the query path — the Redis stage cache and the
chat model — are oracle parameters.  A cache oracle maps a full redis key
to the stored value, `none` meaning a miss (`cache.py::cache_get` treats
empty/absent values alike). -/

/-- A source reference of the answer payload (`pipeline.py` lines 276-283). -/
structure SourceRef where
  document_id : Option String
  filename : Option String
  chunk_id : String
  page : Option String
deriving DecidableEq

/-- The structured answer payload (`pipeline.py` lines 299-308 and 350-356).
`meta_retrieved` is `none` for the `_empty_answer` payloads, whose metadata
carries only `mode` and `model`. -/
structure AnswerPayload where
  answer : String
  sources : List SourceRef
  quotes : List String
  meta_mode : String
  meta_model : String
  meta_retrieved : Option Nat
deriving DecidableEq

/-- `RagPipeline._empty_answer`. -/
def emptyAnswer (model message mode : String) : AnswerPayload :=
  { answer := message, sources := [], quotes := [], meta_mode := mode,
    meta_model := model, meta_retrieved := none }

/-- Oracles for the query path's external collaborators: the three stage
caches the code manages to reach, and the chat completion (as a function of
the human prompt; the fixed system prompt is part of the oracle). -/
structure QueryEnv where
  rewriteCache : String → Option String
  answerCache : String → Option AnswerPayload
  chat : String → String

/-- `(chunk.get('content') or '').strip()` (`pipeline.py` line 271):
`None` and missing keys collapse to the empty string. -/
def cleanedContent (c : RChunk) : String :=
  pyStrip (pyOrStr c.content "")

/-- The context line a chunk contributes: `f'[{chunk_id}] {cleaned_content}'`
(`pipeline.py` line 272). -/
def contextLine (c : RChunk) : String :=
  "[" ++ chunkIdOf c ++ "] " ++ cleanedContent c

/-- The loop of `pipeline.py` lines 265-284: collect the context lines and,
for each first occurrence of a chunk id, a source reference and a quote
(the first 400 characters of the cleaned content). -/
def buildContextGo (seen : List String) :
    List RChunk → (List String × List SourceRef × List String)
  | [] => ([], [], [])
  | c :: rest =>
      let cid := chunkIdOf c
      if cid ∈ seen then
        let (ls, ss, qs) := buildContextGo seen rest
        (contextLine c :: ls, ss, qs)
      else
        let (ls, ss, qs) := buildContextGo (cid :: seen) rest
        (contextLine c :: ls,
         { document_id := c.md_document_id, filename := c.md_filename,
           chunk_id := cid, page := c.md_page } :: ss,
         String.mk ((cleanedContent c).data.take 400) :: qs)

/-- The assembled `context_text` (`pipeline.py` line 285): the context lines
joined with a blank line. -/
def contextText (chunks : List RChunk) : String :=
  joinSep "\n\n" (buildContextGo [] chunks).1

/-- The mode-specific instruction (`pipeline.py` lines 288-290). -/
def modeHint (mode : String) : String :=
  if mode = "verbatim" then "Return verbatim snippets with citations referencing [chunk-id]."
  else "Answer succinctly with citations referencing [chunk-id]."

/-- `RagPipeline._answer_from_context` (`pipeline.py` lines 253-311), with a
flag recording whether the defensive `'Context chunk text unavailable.'`
branch (line 286-287) fired.  The cache store on line 309 has no bearing on
the returned value and is omitted from the pure model. -/
def answerFromContext (env : QueryEnv) (model : String)
    (cache_key_query original_query mode : String)
    (context_chunks : List RChunk) : AnswerPayload × Bool :=
  match env.answerCache (answerKey cache_key_query model mode) with
  | some cached => (cached, false)
  | none =>
      let build := buildContextGo [] context_chunks
      let ctext := joinSep "\n\n" build.1
      if ctext = "" then
        (emptyAnswer model "Context chunk text unavailable." mode, true)
      else
        let human := modeHint mode ++ "\n" ++ "Question: " ++ original_query
          ++ "\n" ++ "Context:\n" ++ ctext ++ "\n"
        ({ answer := env.chat human, sources := build.2.1, quotes := build.2.2,
           meta_mode := mode, meta_model := model,
           meta_retrieved := some context_chunks.length }, false)

/-- `RagPipeline._rewrite_query` (`pipeline.py` lines 200-209): a cache-gated
identity transform; a cached falsy value (empty string) is recomputed. -/
def rewriteQuery (env : QueryEnv) (normalized_query : String) : String :=
  match env.rewriteCache (rewriteKey normalized_query) with
  | some cached => if cached = "" then normalized_query else cached
  | none => normalized_query

/-- A Python runtime error surfacing from the pipeline. -/
inductive PyError where
  | typeError (message : String)
deriving DecidableEq

/-- A positional argument of a dynamically-typed Python call. -/
inductive PyArg where
  | pyStr (s : String)
  | pyInt (n : Int)
  | pyList (chunks : List RChunk)
deriving DecidableEq

/-- `RagCache.get_retrieval` (`cache.py` lines 63-64) as a Python callable:
it requires exactly the two positional arguments `(query, top_k)` and then
reads the `_retrieve_key(query, top_k)` entry; any other argument list
raises `TypeError` (modelled as `none`). -/
def getRetrievalCall (retrievalCache : String → Option (List RChunk)) :
    List PyArg → Option (Option (List RChunk))
  | [PyArg.pyStr query, PyArg.pyInt top_k] =>
      some (retrievalCache (retrieveKey query top_k))
  | _ => none

/-- `RagCache.set_retrieval` (`cache.py` lines 66-72) as a Python callable:
it requires exactly `(query, top_k, value)` and stores under
`_retrieve_key(query, top_k)`; any other argument list raises `TypeError`. -/
def setRetrievalCall (retrievalCache : String → Option (List RChunk)) :
    List PyArg → Option (String → Option (List RChunk))
  | [PyArg.pyStr query, PyArg.pyInt top_k, PyArg.pyList value] =>
      some (fun k => if k = retrieveKey query top_k then some value else retrievalCache k)
  | _ => none

/-- The retrieval-stage cache lookup exactly as `RagPipeline._retrieve_chunks`
performs it (`pipeline.py` line 213): `self.cache.get_retrieval(query)`,
passing only the query. -/
def retrieveStageCacheLookup (retrievalCache : String → Option (List RChunk))
    (query : String) : Option (Option (List RChunk)) :=
  getRetrievalCall retrievalCache [PyArg.pyStr query]

/-- The retrieval-stage cache store exactly as `RagPipeline._retrieve_chunks`
performs it (`pipeline.py` line 234): `self.cache.set_retrieval(query, formatted)`,
passing the query and the results but no `top_k`. -/
def retrieveStageCacheStore (retrievalCache : String → Option (List RChunk))
    (query : String) (formatted : List RChunk) :
    Option (String → Option (List RChunk)) :=
  setRetrievalCall retrievalCache [PyArg.pyStr query, PyArg.pyList formatted]

/-- `RagPipeline.generate_answer` (`pipeline.py` lines 178-198).  The second
component lists the stages the call actually entered (with the query each
received).  An empty normalized query short-circuits before any stage; on a
non-empty query the rewrite stage runs and the retrieval stage is entered,
where the arity-mismatched `self.cache.get_retrieval(query)` call of
line 213 raises `TypeError` before any retrieval work, so the model stops
there with that error. -/
def generate_answer (env : QueryEnv) (model : String) (query : String)
    (mode : String) : Except PyError AnswerPayload × List (String × String) :=
  let normalized := normalize_text query
  if normalized = "" then
    (Except.ok (emptyAnswer model "Query is empty. Please provide a question." mode), [])
  else
    let rewritten := rewriteQuery env normalized
    (Except.error (PyError.typeError
        "get_retrieval() missing 1 required positional argument: top_k"),
     [("rewrite", normalized), ("retrieve", rewritten)])

/-! ## Theorems about the compressor (claim C3) -/

theorem chunkTokens_nil : chunkTokens [] = 0 := rfl

theorem chunkTokens_cons (c : RChunk) (l : List RChunk) :
    chunkTokens (c :: l) = tokenEstimate c + chunkTokens l := by
  simp [chunkTokens]

theorem compressGo_leading (B : Nat) :
    ∀ (l : List RChunk) (running : Nat), compressGo B running l <+: l := by
  intro l
  induction l with
  | nil => intro running; simp [compressGo]
  | cons c rest ih =>
      intro running
      by_cases h : B < running + tokenEstimate c
      · simp [compressGo, h]
      · simpa [compressGo, h, List.cons_prefix_cons] using ih (running + tokenEstimate c)

theorem compressGo_budget (B : Nat) :
    ∀ (l : List RChunk) (running : Nat),
      running + chunkTokens (compressGo B running l) ≤ B ∨ compressGo B running l = [] := by
  intro l
  induction l with
  | nil => intro running; right; rfl
  | cons c rest ih =>
      intro running
      by_cases h : B < running + tokenEstimate c
      · right; simp [compressGo, h]
      · left
        rcases ih (running + tokenEstimate c) with h' | h'
        · simp only [compressGo, if_neg h, chunkTokens_cons]
          omega
        · simp only [compressGo, if_neg h, chunkTokens_cons, h', chunkTokens_nil]
          omega

theorem compressGo_stop (B : Nat) :
    ∀ (l : List RChunk) (running : Nat) (c : RChunk) (rest : List RChunk),
      l = compressGo B running l ++ c :: rest →
      B < running + chunkTokens (compressGo B running l) + tokenEstimate c := by
  intro l
  induction l with
  | nil =>
      intro running c rest h
      exact absurd h (by simp)
  | cons a l' ih =>
      intro running c rest h
      by_cases hb : B < running + tokenEstimate a
      · simp only [compressGo, if_pos hb, List.nil_append, List.cons.injEq] at h ⊢
        rw [chunkTokens_nil, ← h.1]
        omega
      · simp only [compressGo, if_neg hb, List.cons_append, List.cons.injEq] at h ⊢
        have h' := ih (running + tokenEstimate a) c rest h.2
        rw [chunkTokens_cons]
        omega

/-- C3: `compress_chunks` returns a prefix of its input in the original
order (hence every returned chunk record, content included, is exactly an
input record), the cumulative whitespace-word token estimate of the result
never exceeds the budget, and the result stops exactly before the first
chunk that would exceed the budget. -/
theorem C3_compressor_budget (chunks : List RChunk) (B : Nat) :
    compress_chunks chunks B <+: chunks
    ∧ chunkTokens (compress_chunks chunks B) ≤ B
    ∧ ∀ (c : RChunk) (rest : List RChunk),
        chunks = compress_chunks chunks B ++ c :: rest →
        B < chunkTokens (compress_chunks chunks B) + tokenEstimate c := by
  refine ⟨compressGo_leading B chunks 0, ?_, ?_⟩
  · rcases compressGo_budget B chunks 0 with h | h
    · simpa [compress_chunks] using h
    · simp [compress_chunks, h, chunkTokens_nil]
  · intro c rest h
    have h' := compressGo_stop B chunks 0 c rest h
    simpa [compress_chunks] using h'

/-- A helper chunk record: only `chunk_id` and `content` populated, as in a
retrieval record whose metadata carries nothing of note. -/
def rcChunk (cid content : Option String) : RChunk :=
  { chunk_id := cid, content := content, md_chunk_id := none,
    md_document_id := none, md_filename := none, md_page := none, score := 0 }

/-- Witness for C3: with a budget of 4 tokens, a 2-word chunk is accepted and
the following 3-word chunk is the first that would exceed the budget. -/
theorem C3_compressor_budget_witness :
    compress_chunks [rcChunk (some "a") (some "one two"),
        rcChunk (some "b") (some "three four five")] 4
      <+: [rcChunk (some "a") (some "one two"), rcChunk (some "b") (some "three four five")]
    ∧ chunkTokens (compress_chunks [rcChunk (some "a") (some "one two"),
        rcChunk (some "b") (some "three four five")] 4) ≤ 4
    ∧ 4 < chunkTokens (compress_chunks [rcChunk (some "a") (some "one two"),
        rcChunk (some "b") (some "three four five")] 4)
        + tokenEstimate (rcChunk (some "b") (some "three four five")) := by
  have h := C3_compressor_budget
    [rcChunk (some "a") (some "one two"), rcChunk (some "b") (some "three four five")] 4
  exact ⟨h.1, h.2.1,
    h.2.2 (rcChunk (some "b") (some "three four five")) [] rfl⟩

/-! ## Theorems about the stage-cache keys (claims C10, C2, C1) -/

/-- C10: the stage-cache key function is not injective over its semantic
inputs: `'::'.join` escapes nothing, so the distinct compression inputs
`('a::b', ['c'])` and `('a', ['b', 'c'])` join to the same string and get
the identical cache key. -/
theorem C10_key_collision :
    (("a::b", ["c"]) : String × List String) ≠ (("a", ["b", "c"]) : String × List String)
    ∧ compressKey "a::b" ["c"] = compressKey "a" ["b", "c"] := by
  refine ⟨by decide, ?_⟩
  show "compress:" ++ hashInputs ("a::b" :: ["c"]) = "compress:" ++ hashInputs ("a" :: ["b", "c"])
  unfold hashInputs
  exact congrArg (fun s => "compress:" ++ hash_text s)
    (show joinSep "::" ("a::b" :: ["c"]) = joinSep "::" ("a" :: ["b", "c"]) from rfl)

/-- Counterexample for C2: the compression key is keyed over the chunk ids
in the order given (no sorting), so swapping `['a', 'b']` to `['b', 'a']` —
a permutation — changes the key. -/
theorem C2_counterexample :
    List.Perm ["b", "a"] (["a", "b"] : List String)
    ∧ compressKey "q" ["a", "b"] ≠ compressKey "q" ["b", "a"] := by
  refine ⟨by decide, ?_⟩
  have h1 : compressKey "q" ["a", "b"] = "compress:8a7ff2c9c24f39eda839b5c33c44550e" := rfl
  have h2 : compressKey "q" ["b", "a"] = "compress:3cbc0e3f3e231e9e89f1162689921de0" := rfl
  rw [h1, h2]
  decide

/-- C2 (amended): the compression-stage cache key is a function of the query
and the chunk-id list in its given (retrieval) order: any two retrieved
chunk lists with the same in-order extracted chunk ids — whatever their
contents, scores or other metadata — get the identical key. -/
theorem C2_compress_key_ordered (q : String) (chunks chunks' : List RChunk)
    (h : extractChunkIds chunks = extractChunkIds chunks') :
    compressStageKey q chunks = compressStageKey q chunks' := by
  unfold compressStageKey
  rw [h]

/-- Witness for the amended C2: two chunk lists with equal in-order ids but
different contents share a compression-stage key. -/
theorem C2_compress_key_ordered_witness :
    extractChunkIds [rcChunk (some "a") (some "x")]
      = extractChunkIds [rcChunk (some "a") (some "a different content")]
    ∧ compressStageKey "q" [rcChunk (some "a") (some "x")]
      = compressStageKey "q" [rcChunk (some "a") (some "a different content")] :=
  ⟨rfl, C2_compress_key_ordered "q" _ _ rfl⟩

/-- C1 (the code as written): `RagPipeline._retrieve_chunks` calls
`self.cache.get_retrieval(query)` and `self.cache.set_retrieval(query,
formatted)` without the `top_k` argument `RagCache` requires, so for every
cache state, query and result list both the lookup and the store raise
`TypeError` instead of touching a `(rewritten query, top_k)`-keyed entry. -/
theorem C1_retrieval_cache_arity :
    ∀ (retrievalCache : String → Option (List RChunk)) (query : String)
      (formatted : List RChunk),
      retrieveStageCacheLookup retrievalCache query = none
      ∧ retrieveStageCacheStore retrievalCache query formatted = none := by
  intro rc q f
  exact ⟨rfl, rfl⟩

/-! ## Theorems about the query path (claims C4, C9) -/

/-- A trivial collaborator environment: cold caches, an empty-chat model. -/
def trivialQueryEnv : QueryEnv :=
  { rewriteCache := fun _ => none, answerCache := fun _ => none, chat := fun _ => "" }

/-- C4: a query whose normalization (strip, lowercase, collapse whitespace)
is empty — in particular a whitespace-only query — makes `generate_answer`
return the structured `'Query is empty. Please provide a question.'`
payload with empty sources and quotes, with no pipeline stage entered and
no error raised. -/
theorem C4_empty_query_short_circuit (env : QueryEnv) (model query mode : String)
    (h : normalize_text query = "") :
    generate_answer env model query mode
      = (Except.ok (emptyAnswer model "Query is empty. Please provide a question." mode), [])
    ∧ (emptyAnswer model "Query is empty. Please provide a question." mode).answer
        = "Query is empty. Please provide a question."
    ∧ (emptyAnswer model "Query is empty. Please provide a question." mode).sources = []
    ∧ (emptyAnswer model "Query is empty. Please provide a question." mode).quotes = [] := by
  refine ⟨?_, rfl, rfl, rfl⟩
  simp [generate_answer, h]

/-- Witness for C4: the whitespace-only query of the spec's scenario. -/
theorem C4_empty_query_short_circuit_witness :
    normalize_text "   " = ""
    ∧ generate_answer trivialQueryEnv "gpt-4.1-mini" "   " "answer"
        = (Except.ok (emptyAnswer "gpt-4.1-mini"
            "Query is empty. Please provide a question." "answer"), []) :=
  ⟨rfl,
   (C4_empty_query_short_circuit trivialQueryEnv "gpt-4.1-mini" "   " "answer" rfl).1⟩

theorem string_append_data (s t : String) : (s ++ t).data = s.data ++ t.data := rfl

theorem contextLine_data (c : RChunk) :
    (contextLine c).data = '[' :: ((chunkIdOf c ++ "] " ++ cleanedContent c).data) := by
  show (("[" ++ chunkIdOf c) ++ "] " ++ cleanedContent c).data = _
  rw [string_append_data, string_append_data, string_append_data, string_append_data]
  rfl

theorem joinSep_head_ne_empty (sep : String) (x : String) (xs : List String)
    (h : x.data ≠ []) : joinSep sep (x :: xs) ≠ "" := by
  intro hcontra
  cases xs with
  | nil =>
      simp only [joinSep] at hcontra
      exact h (by rw [hcontra])
  | cons y ys =>
      simp only [joinSep] at hcontra
      have : (x ++ sep ++ joinSep sep (y :: ys)).data = [] := by rw [hcontra]
      rw [string_append_data, string_append_data] at this
      rcases List.append_eq_nil.mp this with ⟨h1, _⟩
      rcases List.append_eq_nil.mp h1 with ⟨h2, _⟩
      exact h h2

theorem buildContextGo_lines (chunks : List RChunk) :
    ∀ seen, (buildContextGo seen chunks).1 = chunks.map contextLine := by
  induction chunks with
  | nil => intro seen; rfl
  | cons c rest ih =>
      intro seen
      by_cases h : chunkIdOf c ∈ seen
      · simp only [buildContextGo, if_pos h, List.map_cons]
        rw [← ih seen]
      · simp only [buildContextGo, if_neg h, List.map_cons]
        rw [← ih (chunkIdOf c :: seen)]

/-- C9: for every non-empty list of chunks reaching the answer-generation
stage, every context line is non-empty (it opens with a bracketed chunk id,
even when the chunk's content is empty or missing), so the assembled
context text is non-empty and the defensive
`'Context chunk text unavailable.'` branch of `_answer_from_context` never
fires. -/
theorem C9_context_text_nonempty (context_chunks : List RChunk)
    (h : context_chunks ≠ []) :
    contextText context_chunks ≠ ""
    ∧ ∀ (env : QueryEnv) (model cache_key_query original_query mode : String),
        (answerFromContext env model cache_key_query original_query mode
          context_chunks).2 = false := by
  have hlines : (buildContextGo [] context_chunks).1 = context_chunks.map contextLine :=
    buildContextGo_lines context_chunks []
  have hne : joinSep "\n\n" (buildContextGo [] context_chunks).1 ≠ "" := by
    rw [hlines]
    cases context_chunks with
    | nil => exact absurd rfl h
    | cons c rest =>
        rw [List.map_cons]
        refine joinSep_head_ne_empty "\n\n" (contextLine c) _ ?_
        rw [contextLine_data]
        exact List.cons_ne_nil _ _
  refine ⟨hne, ?_⟩
  intro env model ckq oq mode
  unfold answerFromContext
  cases hc : env.answerCache (answerKey ckq model mode) with
  | some cached => rfl
  | none => simp only [if_neg hne]

/-- Witness for C9: a single chunk with no id and no content still yields the
non-empty context line `'[chunk] '`, so the defensive branch stays cold. -/
theorem C9_context_text_nonempty_witness :
    ([rcChunk none none] : List RChunk) ≠ []
    ∧ contextText [rcChunk none none] ≠ ""
    ∧ (answerFromContext trivialQueryEnv "gpt-4.1-mini" "q" "q" "answer"
        [rcChunk none none]).2 = false := by
  have h := C9_context_text_nonempty [rcChunk none none] (List.cons_ne_nil _ _)
  exact ⟨List.cons_ne_nil _ _, h.1, h.2 trivialQueryEnv "gpt-4.1-mini" "q" "q" "answer"⟩

/-! ## Chunking (`ingest/chunking.py`)

`chunk_text` delegates the actual text splitting to the external langchain
splitters.  The recursive character splitter is an oracle parameter
`rsplit : String → List String` (it already carries its `chunk_size`,
`chunk_overlap` and separator configuration); the Markdown header splitter
is modelled below from the spec.  Everything else — strategy selection,
metadata assembly, section titles — is embedded from `chunking.py`. -/

/-- The `h1`..`h4` metadata carried by a Markdown heading segment
(`HEADER_FIELDS` in `chunking.py`). -/
structure HeaderMeta where
  h1 : Option String := none
  h2 : Option String := none
  h3 : Option String := none
  h4 : Option String := none
deriving DecidableEq

def emptyHeaderMeta : HeaderMeta := {}

/-- `chunking.py::_section_title`: the truthy `h1..h4` values, stripped, in
level order, joined with `' > '`; `None` when no heading is active. -/
def sectionTitle (m : HeaderMeta) : Option String :=
  let parts := ([m.h1, m.h2, m.h3, m.h4].filterMap id).filterMap
    (fun v => if v = "" then none else some (pyStrip v))
  if parts = [] then none else some (joinSep " > " parts)

def countHashes : List Char → Nat
  | '#' :: rest => 1 + countHashes rest
  | _ => 0

/-- Recognise a Markdown heading line of level 1-4 (`'#'` runs followed by a
space), returning the level and the stripped heading text. -/
def parseHeading (line : String) : Option (Nat × String) :=
  let stripped := pyStrip line
  let n := countHashes stripped.data
  if 1 ≤ n ∧ n ≤ 4 ∧ (stripped.data.drop n).head? = some ' ' then
    some (n, pyStrip (String.mk (stripped.data.drop n)))
  else none

/-- Entering a heading of level `n` sets that level and clears the deeper
ones, keeping the shallower ancestry. -/
def setHeader (m : HeaderMeta) (n : Nat) (t : String) : HeaderMeta :=
  match n with
  | 1 => { h1 := some t }
  | 2 => { m with h2 := some t, h3 := none, h4 := none }
  | 3 => { m with h3 := some t, h4 := none }
  | _ => { m with h4 := some t }

def splitLinesGo : List Char → List Char → List String
  | cur, [] => [String.mk cur.reverse]
  | cur, c :: rest =>
      if c = '\n' then String.mk cur.reverse :: splitLinesGo [] rest
      else splitLinesGo (c :: cur) rest

def splitLines (s : String) : List String :=
  splitLinesGo [] s.data

/-- Emit the accumulated segment under the active heading path, skipping
whitespace-only segments. -/
def mdFlush (meta : HeaderMeta) (acc : List String) : List (String × HeaderMeta) :=
  let text := pyStrip (joinSep "\n" acc)
  if text = "" then [] else [(text, meta)]

def mdSplitGo (meta : HeaderMeta) (acc : List String) :
    List String → List (String × HeaderMeta)
  | [] => mdFlush meta acc
  | line :: rest =>
      match parseHeading line with
      | some (n, t) => mdFlush meta acc ++ mdSplitGo (setHeader meta n t) [] rest
      | none => mdSplitGo meta (acc ++ [line]) rest

/-- Modelled from the spec: the external `MarkdownHeaderTextSplitter`
(`langchain`, absent from `src/`) used by `chunking.py::_chunk_markdown`
segments the text by heading hierarchy (levels 1-4), carrying the active
heading path as `h1..h4` metadata into every segment; heading lines are
consumed, and segments with no content are dropped. -/
def markdownHeaderSplit (raw_text : String) : List (String × HeaderMeta) :=
  mdSplitGo emptyHeaderMeta [] (splitLines raw_text)

/-- A chunk record produced by `chunking.py::_format_chunks`: the dict with
`chunk_id`, `content` and the assembled `metadata` (optional keys model the
conditionally-added `source_extension`/`section_title` entries; `headers`
models the `metadata.update(extra_metadata)` of the markdown path). -/
structure ChunkRecord where
  chunk_id : String
  content : String
  document_id : String
  filename : String
  chunk_index : Nat
  chunk_total : Nat
  content_length : Nat
  chunk_strategy : String
  source_extension : Option String
  section_title : Option String
  headers : HeaderMeta
deriving DecidableEq

/-- The body of the `for idx, chunk in enumerate(chunks)` loop of
`_format_chunks`, recursing with the running index. -/
def formatChunksGo (document_id filename source_extension chunk_strategy : String)
    (total : Nat) (metadata_list : Option (List HeaderMeta)) :
    Nat → List String → List ChunkRecord
  | _, [] => []
  | idx, chunk :: rest =>
      let extra := match metadata_list with
        | some ml => ml.getD idx emptyHeaderMeta
        | none => emptyHeaderMeta
      { chunk_id := document_id ++ "-chunk-" ++ toString idx
        content := chunk
        document_id := document_id
        filename := filename
        chunk_index := idx
        chunk_total := total
        content_length := chunk.length
        chunk_strategy := chunk_strategy
        source_extension := if source_extension = "" then none else some source_extension
        section_title := sectionTitle extra
        headers := extra } ::
        formatChunksGo document_id filename source_extension chunk_strategy total
          metadata_list (idx + 1) rest

/-- `chunking.py::_format_chunks`. -/
def formatChunks (document_id filename : String) (chunks : List String)
    (source_extension chunk_strategy : String)
    (metadata_list : Option (List HeaderMeta)) : List ChunkRecord :=
  formatChunksGo document_id filename source_extension chunk_strategy
    chunks.length metadata_list 0 chunks

/-- The sub-chunk documents of the markdown path: the recursive splitter
applied within each heading segment, each piece keeping its segment's
metadata (`split_documents` semantics). -/
def mdDocs (rsplit : String → List String) (raw_text : String) :
    List (String × HeaderMeta) :=
  ((markdownHeaderSplit raw_text).map
    (fun hd => (rsplit hd.1).map (fun piece => (piece, hd.2)))).flatten

/-- `chunking.py::_chunk_markdown`: header segmentation, then the recursive
splitter within each segment, then `_format_chunks` with the parallel
metadata list; no heading segments at all yield the empty result. -/
def chunkMarkdown (rsplit : String → List String)
    (document_id filename raw_text ne ns : String) : List ChunkRecord :=
  if markdownHeaderSplit raw_text = [] then []
  else
    formatChunks document_id filename ((mdDocs rsplit raw_text).map Prod.fst) ne ns
      (some ((mdDocs rsplit raw_text).map Prod.snd))

/-- `chunking.py::chunk_text`: normalize the strategy (`or 'recursive'`,
lowercased) and extension (`or ''`, lowercased); the Markdown-aware path is
taken exactly when the strategy is `markdown` or `auto` and the extension
is `.md`, otherwise the plain recursive splitter output is formatted with
no extra metadata. -/
def chunk_text (rsplit : String → List String)
    (document_id filename raw_text : String)
    (source_extension : Option String) (chunk_strategy : String) : List ChunkRecord :=
  let ns := pyLower (pyOrStr (some chunk_strategy) "recursive")
  let ne := pyLower (source_extension.getD "")
  if (ns = "markdown" ∨ ns = "auto") ∧ ne = ".md" then
    chunkMarkdown rsplit document_id filename raw_text ne ns
  else
    formatChunks document_id filename (rsplit raw_text) ne ns none

/-- The `chunk_text` call `RagPipeline._ingest_plan` makes (`pipeline.py`
lines 148-154): only `document_id`, `filename`, `raw_text`, `chunk_size`
and `chunk_overlap` are passed, so `source_extension` stays `None` and
`chunk_strategy` stays `'recursive'`. -/
def pipelineChunkText (rsplit : String → List String)
    (document_id filename raw_text : String) : List ChunkRecord :=
  chunk_text rsplit document_id filename raw_text none "recursive"

/-! ## Theorems about the chunker (claim C5) -/

theorem getD_mem_of_lt {α : Type} (l : List α) (d : α) :
    ∀ i, i < l.length → l.getD i d ∈ l := by
  induction l with
  | nil => intro i h; simp at h
  | cons a l ih =>
      intro i h
      cases i with
      | zero => simp [List.getD]
      | succ n =>
          rw [List.getD_cons_succ]
          exact List.mem_cons_of_mem a (ih n (by simpa using h))

theorem formatChunksGo_section_none (d f se cs : String) (total : Nat) :
    ∀ (chunks : List String) (idx : Nat) (r : ChunkRecord),
      r ∈ formatChunksGo d f se cs total none idx chunks → r.section_title = none := by
  intro chunks
  induction chunks with
  | nil => intro idx r hr; simp [formatChunksGo] at hr
  | cons c rest ih =>
      intro idx r hr
      simp only [formatChunksGo, List.mem_cons] at hr
      rcases hr with h | h
      · subst h; rfl
      · exact ih (idx + 1) r h

theorem formatChunksGo_section_const (d f se cs : String) (total : Nat)
    (ml : List HeaderMeta) (t : Option String)
    (hml : ∀ m ∈ ml, sectionTitle m = t) :
    ∀ (chunks : List String) (idx : Nat),
      idx + chunks.length ≤ ml.length →
      ∀ r ∈ formatChunksGo d f se cs total (some ml) idx chunks,
        r.section_title = t := by
  intro chunks
  induction chunks with
  | nil => intro idx hlen r hr; simp [formatChunksGo] at hr
  | cons c rest ih =>
      intro idx hlen r hr
      simp only [formatChunksGo, List.mem_cons] at hr
      rcases hr with h | h
      · subst h
        show sectionTitle (ml.getD idx emptyHeaderMeta) = t
        refine hml _ (getD_mem_of_lt ml emptyHeaderMeta idx ?_)
        simp only [List.length_cons] at hlen
        omega
      · refine ih (idx + 1) ?_ r h
        simp only [List.length_cons] at hlen
        omega

theorem chunkMarkdown_section_const (rsplit : String → List String)
    (d f raw ne ns : String) (t : Option String)
    (hall : ∀ seg ∈ markdownHeaderSplit raw, sectionTitle seg.2 = t) :
    ∀ r ∈ chunkMarkdown rsplit d f raw ne ns, r.section_title = t := by
  intro r hr
  unfold chunkMarkdown at hr
  by_cases hnil : markdownHeaderSplit raw = []
  · rw [if_pos hnil] at hr
    simp at hr
  · rw [if_neg hnil] at hr
    refine formatChunksGo_section_const d f ne ns _ _ t ?_ _ 0 (by simp) r hr
    intro m hm
    rcases List.mem_map.mp hm with ⟨pr, hpr, hpr2⟩
    rcases List.mem_flatten.mp (by exact hpr) with ⟨piece_list, hpl, hmem⟩
    rcases List.mem_map.mp hpl with ⟨hd, hhd, hhd2⟩
    subst hhd2
    rcases List.mem_map.mp hmem with ⟨piece, _, hpiece2⟩
    subst hpiece2
    rw [← hpr2]
    exact hall hd hhd

/-- Counterexample for C5: ingesting a Markdown file through the pipeline
calls `chunk_text` with neither `source_extension` nor `chunk_strategy`
(`pipeline.py` lines 148-154), so the recursive strategy runs and the
chunks for the `# A` / `## B` document carry no `section_title` at all
(here with the identity stand-in for the external recursive splitter) —
not `'A > B'` as claimed. -/
theorem C5_counterexample :
    (pipelineChunkText (fun s => [s]) "doc" "note.md" "# A\n## B\nBody text under B").map
        (fun r => (r.content, r.section_title))
      = [("# A\n## B\nBody text under B", none)]
    ∧ (none : Option String) ≠ some "A > B" :=
  ⟨rfl, by decide⟩

/-- C5 (amended): `chunk_text` selects the Markdown-aware strategy exactly
when the strategy is `markdown`/`auto` and the extension is `.md`, and then
chunks for content under `## B` after `# A` carry
`section_title = 'A > B'`; the pipeline's own ingestion call, however,
passes neither argument, so every chunk it produces — for any document and
any behaviour of the external recursive splitter — has no `section_title`. -/
theorem C5_markdown_section_titles :
    (∀ (rsplit : String → List String) (document_id filename raw_text : String),
      ∀ r ∈ pipelineChunkText rsplit document_id filename raw_text,
        r.section_title = none)
    ∧ (∀ (rsplit : String → List String) (document_id filename strategy : String),
        strategy = "markdown" ∨ strategy = "auto" →
        ∀ r ∈ chunk_text rsplit document_id filename "# A\n## B\nBody text under B"
            (some ".md") strategy,
          r.section_title = some "A > B") := by
  constructor
  · intro rsplit d f raw r hr
    have hred : pipelineChunkText rsplit d f raw
        = formatChunks d f (rsplit raw) "" "recursive" none := rfl
    rw [hred] at hr
    exact formatChunksGo_section_none d f "" "recursive" (rsplit raw).length
      (rsplit raw) 0 r hr
  · intro rsplit d f strategy hstrat r hr
    have hall : ∀ seg ∈ markdownHeaderSplit "# A\n## B\nBody text under B",
        sectionTitle seg.2 = some "A > B" := by
      intro seg hseg
      have hsplit : markdownHeaderSplit "# A\n## B\nBody text under B"
          = [("Body text under B", ({ h1 := some "A", h2 := some "B" } : HeaderMeta))] := rfl
      rw [hsplit] at hseg
      rcases List.mem_singleton.mp hseg with h
      rw [h]
      rfl
    rcases hstrat with h | h
    · subst h
      have hred : chunk_text rsplit d f "# A\n## B\nBody text under B" (some ".md") "markdown"
          = chunkMarkdown rsplit d f "# A\n## B\nBody text under B" ".md" "markdown" := rfl
      rw [hred] at hr
      exact chunkMarkdown_section_const rsplit d f _ ".md" "markdown" _ hall r hr
    · subst h
      have hred : chunk_text rsplit d f "# A\n## B\nBody text under B" (some ".md") "auto"
          = chunkMarkdown rsplit d f "# A\n## B\nBody text under B" ".md" "auto" := rfl
      rw [hred] at hr
      exact chunkMarkdown_section_const rsplit d f _ ".md" "auto" _ hall r hr

/-! ## Ingestion subsystem (`rag/pipeline.py` + `ingest/indexing.py`)

The filesystem is modelled as a list of directory entries; a file's bytes
are the UTF-8 encoding of its `content` string, so `hash_file` is
`hash_text` of the content.  The Qdrant index is a list of points
(id, document payload); embeddings carry no information the claims touch
and are omitted from the point model.  The binary-format extractors and
the recursive splitter are oracles in `IngestEnv`. -/

/-- A directory entry of the corpus directory (`notes_dir.iterdir()`). -/
structure FSFile where
  name : String
  is_file : Bool
  content : String
deriving DecidableEq

/-- `utils/hashing.py::hash_file`: `blake2b(digest_size=16)` over the file's
bytes. -/
def hash_file (f : FSFile) : String :=
  hash_text f.content

def splitCharGo (sep : Char) : List Char → List Char → List String
  | cur, [] => [String.mk cur.reverse]
  | cur, c :: rest =>
      if c = sep then String.mk cur.reverse :: splitCharGo sep [] rest
      else splitCharGo sep (c :: cur) rest

/-- Python `s.split(sep)` for a single-character separator. -/
def splitChar (sep : Char) (s : String) : List String :=
  splitCharGo sep [] s.data

/-- `pathlib.PurePath.suffix`: the extension of the name, dot included; a
leading or trailing dot yields no suffix. -/
def pathSuffix (name : String) : String :=
  match (name.data.reverse.findIdx? (fun c => c = '.')).map
      (fun j => name.data.length - 1 - j) with
  | none => ""
  | some i =>
      if 0 < i ∧ i + 1 < name.data.length then String.mk (name.data.drop i) else ""

/-- `RagPipeline.__init__` (`pipeline.py` line 36): the allow-list parsed
from the comma-separated `settings.allowed_exts`. -/
def parseAllowedExts (s : String) : List String :=
  (((splitChar ',' s).map pyStrip).filter (fun e => e ≠ "")).map pyLower

/-- A manifest entry as written by `indexing.py::update_manifest_entry`. -/
structure ManifestEntry where
  document_id : String
  hash : String
  size_bytes : Nat
  total_chunks : Nat
  last_ingested_at : String
deriving DecidableEq

/-- The manifest: the `filename → entry` mapping, in insertion order
(Python `dict` semantics). -/
abbrev Manifest : Type := List (String × ManifestEntry)

/-- `manifest.get(filename)`: the entry under the key (keys are unique in a
Python dict, so first-match lookup is exact). -/
def mget : Manifest → String → Option ManifestEntry
  | [], _ => none
  | p :: rest, k => if p.1 = k then some p.2 else mget rest k

/-- `manifest[filename] = entry`: overwrite the entry in place, or append a
new binding (Python dicts keep the key position on overwrite). -/
def mset : Manifest → String → ManifestEntry → Manifest
  | [], k, e => [(k, e)]
  | p :: rest, k, e => if p.1 = k then (k, e) :: rest else p :: mset rest k e

/-- The entry value `indexing.py::update_manifest_entry` writes (`now` is
the `datetime.utcnow().isoformat()` oracle value). -/
def manifestEntryOf (document_id file_hash : String)
    (total_chunks size_bytes : Nat) (now : String) : ManifestEntry :=
  { document_id := document_id, hash := file_hash, size_bytes := size_bytes,
    total_chunks := total_chunks, last_ingested_at := now }

/-- `indexing.py::update_manifest_entry`. -/
def updateManifestEntry (m : Manifest) (filename document_id file_hash : String)
    (total_chunks size_bytes : Nat) (now : String) : Manifest :=
  mset m filename (manifestEntryOf document_id file_hash total_chunks size_bytes now)

/-- `existing and existing.get('hash') == file_hash`: the manifest has an
entry for the name and its stored hash equals the computed one. -/
def manifestHashMatches (m : Manifest) (name h : String) : Bool :=
  match mget m name with
  | some e => e.hash = h
  | none => false

/-- A point of the vector index: id, `document_id` payload field, content. -/
structure IndexedPoint where
  id : String
  document_id : String
  content : String
deriving DecidableEq

/-- The point upserted for a chunk record (`pipeline.py` lines 331-339):
point id is the chunk id, the payload is the metadata plus the content. -/
def pointOf (r : ChunkRecord) : IndexedPoint :=
  { id := r.chunk_id, document_id := r.document_id, content := r.content }

/-- `RagPipeline._delete_existing_chunks`: remove every point whose
`document_id` payload matches. -/
def vdelete (idx : List IndexedPoint) (docid : String) : List IndexedPoint :=
  idx.filter (fun p => p.document_id ≠ docid)

/-- Qdrant upsert semantics: points with colliding ids are overwritten, the
rest appended. -/
def vupsert (idx : List IndexedPoint) (pts : List IndexedPoint) : List IndexedPoint :=
  (idx.filter (fun p => pts.all (fun q => q.id ≠ p.id))) ++ pts

/-- Oracles for the ingestion path's external collaborators. -/
structure IngestEnv where
  extract : FSFile → Option String
  rsplit : String → List String
  now : String
  notes_dir : String

/-- `loaders.py::load_document`: binary formats go to the external
extractors (which may fail, returning `None`); `.md`/`.txt`/`.log` are read
as text; other extensions are unsupported. -/
def load_document (env : IngestEnv) (f : FSFile) : Option String :=
  let suffix := pyLower (pathSuffix f.name)
  if suffix = ".pdf" then env.extract f
  else if suffix = ".docx" then env.extract f
  else if suffix = ".csv" ∨ suffix = ".xlsx" then env.extract f
  else if suffix = ".md" ∨ suffix = ".txt" ∨ suffix = ".log" then some f.content
  else none

/-- `RagPipeline._document_id`: hash of the lowercased resolved path. -/
def documentId (env : IngestEnv) (f : FSFile) : String :=
  hash_text (pyLower (env.notes_dir ++ "/" ++ f.name))

/-- One externally visible ingestion operation, in execution order. -/
inductive IngestOp where
  | deleteDoc (document_id : String)
  | upsertPoints (points : List IndexedPoint)
  | manifestWrite (filename : String) (entry : ManifestEntry)
deriving DecidableEq

/-- The mutable state threaded through `RagPipeline._ingest_plan`. -/
structure IngestState where
  manifest : Manifest
  index : List IndexedPoint
  ingested : Nat
  skipped : Nat
  ops : List IngestOp
deriving DecidableEq

/-- One iteration of the `for file_path, file_hash in ingest_plan` loop of
`RagPipeline._ingest_plan` (`pipeline.py` lines 130-169): skip disallowed
extensions; skip (uncounted) when not forced and the manifest hash already
matches; on extraction failure or empty text count a skip; otherwise delete
the document's existing chunks, chunk (through the pipeline's own
`chunk_text` call, which passes no strategy or extension), skip (counted)
on zero chunks, else upsert the new points and update the manifest entry. -/
def ingestStep (env : IngestEnv) (allowed : List String) (force : Bool)
    (st : IngestState) (f : FSFile) (file_hash : String) : IngestState :=
  let document_id := documentId env f
  if pyLower (pathSuffix f.name) ∉ allowed then
    { st with skipped := st.skipped + 1 }
  else if force = false ∧ manifestHashMatches st.manifest f.name file_hash = true then
    st
  else
    match load_document env f with
    | none => { st with skipped := st.skipped + 1 }
    | some raw =>
        if raw = "" then { st with skipped := st.skipped + 1 }
        else
          let records := pipelineChunkText env.rsplit document_id f.name raw
          if records = [] then
            { st with
              index := vdelete st.index document_id
              skipped := st.skipped + 1
              ops := st.ops ++ [IngestOp.deleteDoc document_id] }
          else
            let entry := manifestEntryOf document_id file_hash records.length
              (utf8Bytes f.content).length env.now
            { manifest := updateManifestEntry st.manifest f.name document_id file_hash
                records.length (utf8Bytes f.content).length env.now
              index := vupsert (vdelete st.index document_id) (records.map pointOf)
              ingested := st.ingested + records.length
              skipped := st.skipped
              ops := st.ops ++ [IngestOp.deleteDoc document_id,
                IngestOp.upsertPoints (records.map pointOf),
                IngestOp.manifestWrite f.name entry] }

/-- `RagPipeline._ingest_plan` over a whole plan. -/
def runIngestPlan (env : IngestEnv) (allowed : List String) (force : Bool)
    (st : IngestState) (plan : List (FSFile × String)) : IngestState :=
  plan.foldl (fun s fh => ingestStep env allowed force s fh.1 fh.2) st

/-- The per-file decision of `RagPipeline._build_ingest_plan` (`pipeline.py`
lines 107-116): plan a regular file with an allowed extension unless (not
forced and) its manifest hash already matches. -/
def planEntry (manifest : Manifest) (force : Bool) (allowed : List String)
    (f : FSFile) : Option (FSFile × String) :=
  if f.is_file = false then none
  else if pyLower (pathSuffix f.name) ∉ allowed then none
  else if force = false ∧ manifestHashMatches manifest f.name (hash_file f) = true then none
  else some (f, hash_file f)

/-- `RagPipeline._build_ingest_plan`: one read-only pass over the directory
entries. -/
def buildIngestPlan (dir : List FSFile) (manifest : Manifest) (force : Bool)
    (allowed : List String) : List (FSFile × String) :=
  dir.filterMap (planEntry manifest force allowed)

/-- The outcome of `RagPipeline.refresh_notes`: the computed plan, the final
manifest (saved once at the end), the final index, the summary counters and
the operation trace. -/
structure RefreshResult where
  plan : List (FSFile × String)
  manifest : Manifest
  index : List IndexedPoint
  scanned : Nat
  ingested : Nat
  skipped : Nat
  ops : List IngestOp
deriving DecidableEq

/-- `RagPipeline.refresh_notes` (`pipeline.py` lines 72-81): plan with the
caller's `force`, then apply the plan (`_ingest_plan` keeps its default
`force=False` there), then save the manifest. -/
def refresh_notes (env : IngestEnv) (allowed : List String) (dir : List FSFile)
    (manifest0 : Manifest) (index0 : List IndexedPoint) (force : Bool) : RefreshResult :=
  let plan := buildIngestPlan dir manifest0 force allowed
  let st := runIngestPlan env allowed false
    { manifest := manifest0, index := index0, ingested := 0, skipped := 0, ops := [] } plan
  { plan := plan, manifest := st.manifest, index := st.index,
    scanned := plan.length, ingested := st.ingested, skipped := st.skipped,
    ops := st.ops }

/-! ## Theorems about sync planning (claim C6) -/

theorem not_skip_iff (force m : Bool) :
    ¬(force = false ∧ m = true) ↔ (force = true ∨ m = false) := by
  cases force <;> cases m <;> simp

theorem manifestHashMatches_false_iff (m : Manifest) (n h : String) :
    manifestHashMatches m n h = false ↔
      (mget m n = none ∨ ∃ e, mget m n = some e ∧ e.hash ≠ h) := by
  unfold manifestHashMatches
  cases hm : mget m n with
  | none => simp
  | some e => simp [hm]

theorem planEntry_eq_some (manifest : Manifest) (force : Bool) (allowed : List String)
    (f g : FSFile) (h : String) :
    planEntry manifest force allowed f = some (g, h) ↔
      g = f ∧ h = hash_file f ∧ f.is_file = true
      ∧ pyLower (pathSuffix f.name) ∈ allowed
      ∧ (force = true ∨ manifestHashMatches manifest f.name (hash_file f) = false) := by
  constructor
  · intro hsome
    unfold planEntry at hsome
    by_cases h1 : f.is_file = false
    · rw [if_pos h1] at hsome
      exact absurd hsome (by simp)
    · rw [if_neg h1] at hsome
      by_cases h2 : pyLower (pathSuffix f.name) ∈ allowed
      · rw [if_neg (not_not_intro h2)] at hsome
        by_cases h3 : force = false
            ∧ manifestHashMatches manifest f.name (hash_file f) = true
        · rw [if_pos h3] at hsome
          exact absurd hsome (by simp)
        · rw [if_neg h3] at hsome
          have hpair : (f, hash_file f) = (g, h) := Option.some.inj hsome
          refine ⟨(congrArg Prod.fst hpair).symm, (congrArg Prod.snd hpair).symm,
            ?_, h2, (not_skip_iff force _).mp h3⟩
          cases hf : f.is_file with
          | true => rfl
          | false => exact absurd hf h1
      · rw [if_pos h2] at hsome
        exact absurd hsome (by simp)
  · rintro ⟨hg, hh, hfile, hallow, hcond⟩
    subst hg
    subst hh
    unfold planEntry
    rw [if_neg (by simp [hfile]), if_neg (not_not_intro hallow),
      if_neg ((not_skip_iff force _).mpr hcond)]

theorem mem_buildIngestPlan (dir : List FSFile) (manifest : Manifest) (force : Bool)
    (allowed : List String) (f : FSFile) (h : String) :
    (f, h) ∈ buildIngestPlan dir manifest force allowed ↔
      f ∈ dir ∧ f.is_file = true ∧ pyLower (pathSuffix f.name) ∈ allowed
      ∧ h = hash_file f
      ∧ (force = true ∨ manifestHashMatches manifest f.name (hash_file f) = false) := by
  unfold buildIngestPlan
  rw [List.mem_filterMap]
  constructor
  · rintro ⟨g, hg, hge⟩
    rcases (planEntry_eq_some manifest force allowed g f h).mp hge with
      ⟨hfg, hh, hfile, hallow, hcond⟩
    subst hfg
    exact ⟨hg, hfile, hallow, hh, hcond⟩
  · rintro ⟨hmem, hfile, hallow, hh, hcond⟩
    exact ⟨f, hmem,
      (planEntry_eq_some manifest force allowed f f h).mpr ⟨rfl, hh, hfile, hallow, hcond⟩⟩

/-- C6: a file is planned by `_build_ingest_plan` iff it is a directory
entry that is a regular file with an allowed extension paired with its
freshly computed content hash, and either `force` is set, or no manifest
entry exists for its name, or the stored hash differs from the computed
one; the planning pass is a pure function of the directory and manifest
(it returns only the plan, mutating nothing). -/
theorem C6_sync_plan (dir : List FSFile) (manifest : Manifest) (force : Bool)
    (allowed : List String) (f : FSFile) (h : String) :
    (f, h) ∈ buildIngestPlan dir manifest force allowed ↔
      f ∈ dir ∧ f.is_file = true ∧ pyLower (pathSuffix f.name) ∈ allowed
      ∧ h = hash_file f
      ∧ (force = true
         ∨ mget manifest f.name = none
         ∨ ∃ e, mget manifest f.name = some e ∧ e.hash ≠ hash_file f) := by
  rw [mem_buildIngestPlan]
  rw [manifestHashMatches_false_iff]

/-! ## Theorems about plan application (claim C8) -/

theorem formatChunksGo_document_id (d f se cs : String) (total : Nat)
    (ml : Option (List HeaderMeta)) :
    ∀ (chunks : List String) (idx : Nat) (r : ChunkRecord),
      r ∈ formatChunksGo d f se cs total ml idx chunks → r.document_id = d := by
  intro chunks
  induction chunks with
  | nil => intro idx r hr; simp [formatChunksGo] at hr
  | cons c rest ih =>
      intro idx r hr
      simp only [formatChunksGo, List.mem_cons] at hr
      rcases hr with h | h
      · subst h; rfl
      · exact ih (idx + 1) r h

theorem pipelineChunkText_document_id (rsplit : String → List String)
    (d n raw : String) :
    ∀ r ∈ pipelineChunkText rsplit d n raw, r.document_id = d := by
  intro r hr
  have hred : pipelineChunkText rsplit d n raw
      = formatChunksGo d n "" "recursive" (rsplit raw).length none 0 (rsplit raw) := rfl
  rw [hred] at hr
  exact formatChunksGo_document_id d n "" "recursive" (rsplit raw).length none
    (rsplit raw) 0 r hr

theorem vdelete_mem_ne (idx : List IndexedPoint) (docid : String) :
    ∀ p ∈ vdelete idx docid, p.document_id ≠ docid := by
  intro p hp
  have := (List.mem_filter.mp hp).2
  simpa using this

theorem vupsert_filter_docid (idx pts : List IndexedPoint) (docid : String)
    (hpts : ∀ p ∈ pts, p.document_id = docid) :
    (vupsert (vdelete idx docid) pts).filter (fun p => p.document_id = docid) = pts := by
  unfold vupsert
  rw [List.filter_append]
  have h1 : ((vdelete idx docid).filter
      (fun p => pts.all fun q => q.id ≠ p.id)).filter
        (fun p => p.document_id = docid) = [] := by
    rw [List.filter_eq_nil_iff]
    intro p hp
    have hmem : p ∈ vdelete idx docid := (List.mem_filter.mp hp).1
    simpa using vdelete_mem_ne idx docid p hmem
  have h2 : pts.filter (fun p => p.document_id = docid) = pts := by
    rw [List.filter_eq_self]
    intro p hp
    simpa using hpts p hp
  rw [h1, h2, List.nil_append]

/-- C8: per planned file during plan application (given an allowed extension
and no hash-skip): if extraction fails or yields empty text, the file is
counted skipped and neither the index, the manifest, nor the operation
trace changes for it; if extraction succeeds and chunking is non-empty, the
trace gains exactly delete-then-upsert-then-manifest-write for that file's
`document_id`, and the index's points for that `document_id` afterwards are
exactly the new chunk points (no chunk of the prior version survives); if
chunking yields zero chunks, the file is counted skipped and its manifest
entry is left untouched (only the stale-chunk delete is performed). -/
theorem C8_plan_application (env : IngestEnv) (allowed : List String) (force : Bool)
    (st : IngestState) (f : FSFile) (h : String)
    (hallow : pyLower (pathSuffix f.name) ∈ allowed)
    (hproc : force = true ∨ manifestHashMatches st.manifest f.name h = false) :
    ((load_document env f = none ∨ load_document env f = some "") →
        (ingestStep env allowed force st f h).skipped = st.skipped + 1
        ∧ (ingestStep env allowed force st f h).index = st.index
        ∧ (ingestStep env allowed force st f h).manifest = st.manifest
        ∧ (ingestStep env allowed force st f h).ops = st.ops)
    ∧ (∀ raw, load_document env f = some raw → raw ≠ "" →
        pipelineChunkText env.rsplit (documentId env f) f.name raw = [] →
        (ingestStep env allowed force st f h).skipped = st.skipped + 1
        ∧ mget (ingestStep env allowed force st f h).manifest f.name
            = mget st.manifest f.name
        ∧ (ingestStep env allowed force st f h).ops
            = st.ops ++ [IngestOp.deleteDoc (documentId env f)])
    ∧ (∀ raw, load_document env f = some raw → raw ≠ "" →
        pipelineChunkText env.rsplit (documentId env f) f.name raw ≠ [] →
        (ingestStep env allowed force st f h).ops
            = st.ops ++ [IngestOp.deleteDoc (documentId env f),
              IngestOp.upsertPoints ((pipelineChunkText env.rsplit (documentId env f)
                f.name raw).map pointOf),
              IngestOp.manifestWrite f.name (manifestEntryOf (documentId env f) h
                (pipelineChunkText env.rsplit (documentId env f) f.name raw).length
                (utf8Bytes f.content).length env.now)]
        ∧ ((ingestStep env allowed force st f h).index.filter
              (fun p => p.document_id = documentId env f))
            = (pipelineChunkText env.rsplit (documentId env f) f.name raw).map pointOf) := by
  have hnotin : ¬(pyLower (pathSuffix f.name) ∉ allowed) := not_not_intro hallow
  have hskip : ¬(force = false ∧ manifestHashMatches st.manifest f.name h = true) :=
    (not_skip_iff force _).mpr hproc
  refine ⟨?_, ?_, ?_⟩
  · rintro (hload | hload)
    · simp only [ingestStep, if_neg hnotin, if_neg hskip, hload]
      exact ⟨trivial, trivial, trivial, trivial⟩
    · simp [ingestStep, if_neg hnotin, if_neg hskip, hload]
  · intro raw hload hne hrecs
    simp only [ingestStep, if_neg hnotin, if_neg hskip, hload, if_neg hne, if_pos hrecs]
    exact ⟨trivial, trivial, trivial⟩
  · intro raw hload hne hrecs
    simp only [ingestStep, if_neg hnotin, if_neg hskip, hload, if_neg hne, if_neg hrecs]
    refine ⟨trivial, ?_⟩
    refine vupsert_filter_docid st.index _ (documentId env f) ?_
    intro p hp
    rcases List.mem_map.mp hp with ⟨r, hr, hpr⟩
    rw [← hpr]
    exact pipelineChunkText_document_id env.rsplit (documentId env f) f.name raw r hr

/-- Witness for C8: a changed `.pdf` whose extraction fails is counted
skipped with no operations, while a readable `.txt` ends with exactly its
fresh chunk points under its `document_id`. -/
theorem C8_plan_application_witness :
    ((ingestStep (IngestEnv.mk (fun _ => none) (fun s => [s]) "T0" "/notes")
        [".txt", ".pdf"] false (IngestState.mk [] [] 0 0 [])
        (FSFile.mk "a.pdf" true "v2") "h1").skipped = 0 + 1
      ∧ (ingestStep (IngestEnv.mk (fun _ => none) (fun s => [s]) "T0" "/notes")
        [".txt", ".pdf"] false (IngestState.mk [] [] 0 0 [])
        (FSFile.mk "a.pdf" true "v2") "h1").ops = [])
    ∧ ((ingestStep (IngestEnv.mk (fun _ => none) (fun s => [s]) "T0" "/notes")
          [".txt", ".pdf"] false (IngestState.mk [] [] 0 0 [])
          (FSFile.mk "b.txt" true "hello world") "h1").index.filter
        (fun p => p.document_id = documentId
          (IngestEnv.mk (fun _ => none) (fun s => [s]) "T0" "/notes")
          (FSFile.mk "b.txt" true "hello world")))
      = (pipelineChunkText (fun s => [s])
          (documentId (IngestEnv.mk (fun _ => none) (fun s => [s]) "T0" "/notes")
            (FSFile.mk "b.txt" true "hello world"))
          "b.txt" "hello world").map pointOf := by
  have hpdf := C8_plan_application
    (IngestEnv.mk (fun _ => none) (fun s => [s]) "T0" "/notes") [".txt", ".pdf"] false
    (IngestState.mk [] [] 0 0 []) (FSFile.mk "a.pdf" true "v2") "h1"
    (by decide) (Or.inr rfl)
  have htxt := C8_plan_application
    (IngestEnv.mk (fun _ => none) (fun s => [s]) "T0" "/notes") [".txt", ".pdf"] false
    (IngestState.mk [] [] 0 0 []) (FSFile.mk "b.txt" true "hello world") "h1"
    (by decide) (Or.inr rfl)
  have h1 := hpdf.1 (Or.inl rfl)
  exact ⟨⟨h1.1, h1.2.2.2⟩, (htxt.2.2 "hello world" rfl (by decide) (by decide)).2⟩

/-! ## Theorems about idempotent ingestion (claim C7) -/

theorem ingestStep_not_allowed (env : IngestEnv) (allowed : List String)
    (force : Bool) (st : IngestState) (f : FSFile) (h : String)
    (h1 : pyLower (pathSuffix f.name) ∉ allowed) :
    ingestStep env allowed force st f h = { st with skipped := st.skipped + 1 } := by
  simp only [ingestStep, if_pos h1]

theorem ingestStep_hash_skip (env : IngestEnv) (allowed : List String)
    (force : Bool) (st : IngestState) (f : FSFile) (h : String)
    (h1 : pyLower (pathSuffix f.name) ∈ allowed)
    (h2 : force = false ∧ manifestHashMatches st.manifest f.name h = true) :
    ingestStep env allowed force st f h = st := by
  simp only [ingestStep, if_neg (not_not_intro h1), if_pos h2]

theorem ingestStep_load_fail (env : IngestEnv) (allowed : List String)
    (force : Bool) (st : IngestState) (f : FSFile) (h : String)
    (h1 : pyLower (pathSuffix f.name) ∈ allowed)
    (h2 : ¬(force = false ∧ manifestHashMatches st.manifest f.name h = true))
    (hld : load_document env f = none) :
    ingestStep env allowed force st f h = { st with skipped := st.skipped + 1 } := by
  simp only [ingestStep, if_neg (not_not_intro h1), if_neg h2, hld]

theorem ingestStep_load_empty (env : IngestEnv) (allowed : List String)
    (force : Bool) (st : IngestState) (f : FSFile) (h : String)
    (h1 : pyLower (pathSuffix f.name) ∈ allowed)
    (h2 : ¬(force = false ∧ manifestHashMatches st.manifest f.name h = true))
    (hld : load_document env f = some "") :
    ingestStep env allowed force st f h = { st with skipped := st.skipped + 1 } := by
  simp [ingestStep, if_neg (not_not_intro h1), if_neg h2, hld]

theorem ingestStep_no_chunks (env : IngestEnv) (allowed : List String)
    (force : Bool) (st : IngestState) (f : FSFile) (h : String) (raw : String)
    (h1 : pyLower (pathSuffix f.name) ∈ allowed)
    (h2 : ¬(force = false ∧ manifestHashMatches st.manifest f.name h = true))
    (hld : load_document env f = some raw) (hraw : raw ≠ "")
    (hrec : pipelineChunkText env.rsplit (documentId env f) f.name raw = []) :
    ingestStep env allowed force st f h =
      { st with
        index := vdelete st.index (documentId env f)
        skipped := st.skipped + 1
        ops := st.ops ++ [IngestOp.deleteDoc (documentId env f)] } := by
  simp only [ingestStep, if_neg (not_not_intro h1), if_neg h2, hld, if_neg hraw, if_pos hrec]

theorem ingestStep_success (env : IngestEnv) (allowed : List String)
    (force : Bool) (st : IngestState) (f : FSFile) (h : String) (raw : String)
    (h1 : pyLower (pathSuffix f.name) ∈ allowed)
    (h2 : ¬(force = false ∧ manifestHashMatches st.manifest f.name h = true))
    (hld : load_document env f = some raw) (hraw : raw ≠ "")
    (hrec : pipelineChunkText env.rsplit (documentId env f) f.name raw ≠ []) :
    ingestStep env allowed force st f h =
      { manifest := updateManifestEntry st.manifest f.name (documentId env f) h
          (pipelineChunkText env.rsplit (documentId env f) f.name raw).length
          (utf8Bytes f.content).length env.now
        index := vupsert (vdelete st.index (documentId env f))
          ((pipelineChunkText env.rsplit (documentId env f) f.name raw).map pointOf)
        ingested := st.ingested
          + (pipelineChunkText env.rsplit (documentId env f) f.name raw).length
        skipped := st.skipped
        ops := st.ops ++ [IngestOp.deleteDoc (documentId env f),
          IngestOp.upsertPoints
            ((pipelineChunkText env.rsplit (documentId env f) f.name raw).map pointOf),
          IngestOp.manifestWrite f.name (manifestEntryOf (documentId env f) h
            (pipelineChunkText env.rsplit (documentId env f) f.name raw).length
            (utf8Bytes f.content).length env.now)] } := by
  simp only [ingestStep, if_neg (not_not_intro h1), if_neg h2, hld, if_neg hraw, if_neg hrec]

theorem mget_mset_self : ∀ (m : Manifest) (k : String) (e : ManifestEntry),
    mget (mset m k e) k = some e := by
  intro m k e
  induction m with
  | nil => simp [mget, mset]
  | cons p rest ih =>
      by_cases hpk : p.1 = k
      · simp [mset, mget, hpk]
      · simp [mset, mget, hpk, ih]

theorem mget_mset_ne : ∀ (m : Manifest) (k n : String) (e : ManifestEntry),
    n ≠ k → mget (mset m k e) n = mget m n := by
  intro m k n e hne
  have hkn : ¬(k = n) := fun hh => hne hh.symm
  induction m with
  | nil => simp [mget, mset, hkn]
  | cons p rest ih =>
      by_cases hpk : p.1 = k
      · have hpn : ¬(p.1 = n) := by rw [hpk]; exact hkn
        simp [mset, mget, hpk, hkn, hpn]
      · simp [mset, mget, hpk, ih]

theorem ingestStep_skipped_mono (env : IngestEnv) (allowed : List String)
    (force : Bool) (st : IngestState) (f : FSFile) (h : String) :
    st.skipped ≤ (ingestStep env allowed force st f h).skipped := by
  by_cases h1 : pyLower (pathSuffix f.name) ∉ allowed
  · rw [ingestStep_not_allowed env allowed force st f h h1]
    exact Nat.le_succ _
  · have h1' : pyLower (pathSuffix f.name) ∈ allowed := not_not.mp h1
    by_cases h2 : force = false ∧ manifestHashMatches st.manifest f.name h = true
    · rw [ingestStep_hash_skip env allowed force st f h h1' h2]
    · cases hld : load_document env f with
      | none =>
          rw [ingestStep_load_fail env allowed force st f h h1' h2 hld]
          exact Nat.le_succ _
      | some raw =>
          by_cases hraw : raw = ""
          · subst hraw
            rw [ingestStep_load_empty env allowed force st f h h1' h2 hld]
            exact Nat.le_succ _
          · by_cases hrec : pipelineChunkText env.rsplit (documentId env f) f.name raw = []
            · rw [ingestStep_no_chunks env allowed force st f h raw h1' h2 hld hraw hrec]
              exact Nat.le_succ _
            · rw [ingestStep_success env allowed force st f h raw h1' h2 hld hraw hrec]

theorem ingestStep_mget_ne (env : IngestEnv) (allowed : List String)
    (force : Bool) (st : IngestState) (f : FSFile) (h : String) (n : String)
    (hn : n ≠ f.name) :
    mget (ingestStep env allowed force st f h).manifest n = mget st.manifest n := by
  by_cases h1 : pyLower (pathSuffix f.name) ∉ allowed
  · rw [ingestStep_not_allowed env allowed force st f h h1]
  · have h1' : pyLower (pathSuffix f.name) ∈ allowed := not_not.mp h1
    by_cases h2 : force = false ∧ manifestHashMatches st.manifest f.name h = true
    · rw [ingestStep_hash_skip env allowed force st f h h1' h2]
    · cases hld : load_document env f with
      | none => rw [ingestStep_load_fail env allowed force st f h h1' h2 hld]
      | some raw =>
          by_cases hraw : raw = ""
          · subst hraw
            rw [ingestStep_load_empty env allowed force st f h h1' h2 hld]
          · by_cases hrec : pipelineChunkText env.rsplit (documentId env f) f.name raw = []
            · rw [ingestStep_no_chunks env allowed force st f h raw h1' h2 hld hraw hrec]
            · rw [ingestStep_success env allowed force st f h raw h1' h2 hld hraw hrec]
              exact mget_mset_ne st.manifest f.name n _ hn

theorem ingestStep_establishes (env : IngestEnv) (allowed : List String)
    (force : Bool) (st : IngestState) (f : FSFile) (h : String)
    (h1 : pyLower (pathSuffix f.name) ∈ allowed) :
    manifestHashMatches (ingestStep env allowed force st f h).manifest f.name h = true
    ∨ (ingestStep env allowed force st f h).skipped = st.skipped + 1 := by
  by_cases h2 : force = false ∧ manifestHashMatches st.manifest f.name h = true
  · left
    rw [ingestStep_hash_skip env allowed force st f h h1 h2]
    exact h2.2
  · cases hld : load_document env f with
    | none =>
        right
        rw [ingestStep_load_fail env allowed force st f h h1 h2 hld]
    | some raw =>
        by_cases hraw : raw = ""
        · subst hraw
          right
          rw [ingestStep_load_empty env allowed force st f h h1 h2 hld]
        · by_cases hrec : pipelineChunkText env.rsplit (documentId env f) f.name raw = []
          · right
            rw [ingestStep_no_chunks env allowed force st f h raw h1 h2 hld hraw hrec]
          · left
            rw [ingestStep_success env allowed force st f h raw h1 h2 hld hraw hrec]
            show manifestHashMatches (updateManifestEntry st.manifest f.name _ h _ _ _)
              f.name h = true
            unfold manifestHashMatches updateManifestEntry
            rw [mget_mset_self]
            simp [manifestEntryOf]

theorem runIngestPlan_nil (env : IngestEnv) (allowed : List String) (force : Bool)
    (st : IngestState) : runIngestPlan env allowed force st [] = st := rfl

theorem runIngestPlan_cons (env : IngestEnv) (allowed : List String) (force : Bool)
    (st : IngestState) (fh : FSFile × String) (plan : List (FSFile × String)) :
    runIngestPlan env allowed force st (fh :: plan)
      = runIngestPlan env allowed force (ingestStep env allowed force st fh.1 fh.2) plan := rfl

theorem runIngestPlan_skipped_mono (env : IngestEnv) (allowed : List String)
    (force : Bool) :
    ∀ (plan : List (FSFile × String)) (st : IngestState),
      st.skipped ≤ (runIngestPlan env allowed force st plan).skipped := by
  intro plan
  induction plan with
  | nil => intro st; exact le_refl _
  | cons fh rest ih =>
      intro st
      rw [runIngestPlan_cons]
      exact le_trans (ingestStep_skipped_mono env allowed force st fh.1 fh.2) (ih _)

theorem runIngestPlan_mget_preserved (env : IngestEnv) (allowed : List String)
    (force : Bool) :
    ∀ (plan : List (FSFile × String)) (st : IngestState) (n : String),
      (∀ fh ∈ plan, fh.1.name ≠ n) →
      mget (runIngestPlan env allowed force st plan).manifest n = mget st.manifest n := by
  intro plan
  induction plan with
  | nil => intro st n _; rfl
  | cons fh rest ih =>
      intro st n hn
      rw [runIngestPlan_cons]
      rw [ih _ n (fun g hg => hn g (List.mem_cons_of_mem fh hg))]
      exact ingestStep_mget_ne env allowed force st fh.1 fh.2 n
        (fun hh => hn fh (List.mem_cons_self fh rest) hh.symm)

theorem runIngestPlan_establishes (env : IngestEnv) (allowed : List String)
    (force : Bool) :
    ∀ (plan : List (FSFile × String)) (st : IngestState),
      (plan.map (fun fh => fh.1.name)).Nodup →
      (runIngestPlan env allowed force st plan).skipped = st.skipped →
      ∀ fh ∈ plan, pyLower (pathSuffix fh.1.name) ∈ allowed →
        manifestHashMatches (runIngestPlan env allowed force st plan).manifest
          fh.1.name fh.2 = true := by
  intro plan
  induction plan with
  | nil => intro st _ _ fh hfh; simp at hfh
  | cons gh rest ih =>
      intro st hnodup hskip fh hfh hallow
      rw [runIngestPlan_cons] at hskip ⊢
      have hmono1 := ingestStep_skipped_mono env allowed force st gh.1 gh.2
      have hmono2 := runIngestPlan_skipped_mono env allowed force rest
        (ingestStep env allowed force st gh.1 gh.2)
      have hstep_skip : (ingestStep env allowed force st gh.1 gh.2).skipped
          = st.skipped := by omega
      have hrest_skip : (runIngestPlan env allowed force
          (ingestStep env allowed force st gh.1 gh.2) rest).skipped
          = (ingestStep env allowed force st gh.1 gh.2).skipped := by omega
      have hnd : (∀ (x : FSFile) (y : String), (x, y) ∈ rest → ¬x.name = gh.1.name)
          ∧ (rest.map (fun fh => fh.1.name)).Nodup := by simpa using hnodup
      rcases List.mem_cons.mp hfh with heq | hmem
      · subst heq
        rcases ingestStep_establishes env allowed force st fh.1 fh.2 hallow with hok | hbad
        · have hpres : mget (runIngestPlan env allowed force
              (ingestStep env allowed force st fh.1 fh.2) rest).manifest fh.1.name
              = mget (ingestStep env allowed force st fh.1 fh.2).manifest fh.1.name := by
            refine runIngestPlan_mget_preserved env allowed force rest _ fh.1.name ?_
            intro g hg
            exact hnd.1 g.1 g.2 hg
          unfold manifestHashMatches at hok ⊢
          rw [hpres]
          exact hok
        · omega
      · exact ih _ hnd.2 hrest_skip fh hmem hallow

theorem buildIngestPlan_fst_sublist (manifest : Manifest) (force : Bool)
    (allowed : List String) :
    ∀ dir : List FSFile,
      ((buildIngestPlan dir manifest force allowed).map Prod.fst).Sublist dir := by
  intro dir
  induction dir with
  | nil => simp [buildIngestPlan]
  | cons f rest ih =>
      show ((List.filterMap (planEntry manifest force allowed) (f :: rest)).map
        Prod.fst).Sublist (f :: rest)
      rw [List.filterMap_cons]
      cases hpe : planEntry manifest force allowed f with
      | none => exact ih.cons f
      | some fh =>
          rw [List.map_cons]
          have hf : fh.1 = f :=
            ((planEntry_eq_some manifest force allowed f fh.1 fh.2).mp
              (by rw [hpe])).1
          rw [hf]
          exact ih.cons₂ f

theorem buildIngestPlan_names_nodup (manifest : Manifest) (force : Bool)
    (allowed : List String) (dir : List FSFile)
    (hnodup : (dir.map FSFile.name).Nodup) :
    ((buildIngestPlan dir manifest force allowed).map (fun fh => fh.1.name)).Nodup := by
  have hsub := (buildIngestPlan_fst_sublist manifest force allowed dir).map FSFile.name
  rw [List.map_map] at hsub
  exact hnodup.sublist hsub

theorem nodup_names_inj (dir : List FSFile)
    (hnodup : (dir.map FSFile.name).Nodup) :
    ∀ f ∈ dir, ∀ g ∈ dir, f.name = g.name → f = g := by
  induction dir with
  | nil => simp
  | cons a rest ih =>
      have hnd : (∀ x ∈ rest, ¬x.name = a.name) ∧ (rest.map FSFile.name).Nodup := by
        simpa using hnodup
      intro f hf g hg hfg
      rcases List.mem_cons.mp hf with rfl | hf'
      · rcases List.mem_cons.mp hg with rfl | hg'
        · rfl
        · exact absurd hfg.symm (hnd.1 g hg')
      · rcases List.mem_cons.mp hg with rfl | hg'
        · exact absurd hfg (hnd.1 f hf')
        · exact ih hnd.2 f hf' g hg' hfg

theorem second_plan_empty (env : IngestEnv) (allowed : List String)
    (dir : List FSFile) (manifest0 : Manifest) (index0 : List IndexedPoint)
    (force : Bool)
    (hnodup : (dir.map FSFile.name).Nodup)
    (hsucc : (refresh_notes env allowed dir manifest0 index0 force).skipped = 0) :
    buildIngestPlan dir
      (refresh_notes env allowed dir manifest0 index0 force).manifest false allowed
      = [] := by
  unfold buildIngestPlan
  rw [List.filterMap_eq_nil_iff]
  intro f hf
  unfold planEntry
  by_cases h1 : f.is_file = false
  · rw [if_pos h1]
  · rw [if_neg h1]
    by_cases h2 : pyLower (pathSuffix f.name) ∈ allowed
    · rw [if_neg (not_not_intro h2)]
      have hfile : f.is_file = true := by
        cases hft : f.is_file with
        | true => rfl
        | false => exact absurd hft h1
      have hmatches : manifestHashMatches
          (refresh_notes env allowed dir manifest0 index0 force).manifest
          f.name (hash_file f) = true := by
        by_cases hin : (f, hash_file f) ∈ buildIngestPlan dir manifest0 force allowed
        · exact runIngestPlan_establishes env allowed false
            (buildIngestPlan dir manifest0 force allowed)
            { manifest := manifest0, index := index0, ingested := 0, skipped := 0, ops := [] }
            (buildIngestPlan_names_nodup manifest0 force allowed dir hnodup)
            hsucc (f, hash_file f) hin h2
        · have hcond : ¬(force = true
              ∨ manifestHashMatches manifest0 f.name (hash_file f) = false) := by
            intro hcond
            exact hin ((mem_buildIngestPlan dir manifest0 force allowed f
              (hash_file f)).mpr ⟨hf, hfile, h2, rfl, hcond⟩)
          push_neg at hcond
          have hm0 : manifestHashMatches manifest0 f.name (hash_file f) = true := by
            cases hmv : manifestHashMatches manifest0 f.name (hash_file f) with
            | true => rfl
            | false => exact absurd hmv hcond.2
          have hnotplanned : ∀ gh ∈ buildIngestPlan dir manifest0 force allowed,
              gh.1.name ≠ f.name := by
            intro gh hgh hname
            rcases (mem_buildIngestPlan dir manifest0 force allowed gh.1 gh.2).mp
              (by simpa using hgh) with ⟨hgdir, -, -, hgh2, -⟩
            have : gh.1 = f := nodup_names_inj dir hnodup gh.1 hgdir f hf hname
            apply hin
            have : gh = (f, hash_file f) := by
              rw [Prod.ext_iff]
              exact ⟨this, by rw [hgh2, this]⟩
            rw [← this]
            exact hgh
          have hpres := runIngestPlan_mget_preserved env allowed false
            (buildIngestPlan dir manifest0 force allowed)
            { manifest := manifest0, index := index0, ingested := 0, skipped := 0, ops := [] }
            f.name hnotplanned
          unfold manifestHashMatches at hm0 ⊢
          rw [show (refresh_notes env allowed dir manifest0 index0 force).manifest
            = (runIngestPlan env allowed false
                { manifest := manifest0, index := index0, ingested := 0, skipped := 0,
                  ops := [] }
                (buildIngestPlan dir manifest0 force allowed)).manifest from rfl]
          rw [hpres]
          exact hm0
      rw [if_pos ⟨rfl, hmatches⟩]
    · rw [if_pos h2]

/-- C7 (amended): after a refresh in which no file was skipped, a second
refresh with `force` unset over unchanged contents computes an empty plan,
performs no delete/upsert/manifest-write operation, ingests zero chunks and
returns the manifest unchanged (so every entry's hash is untouched); and a
planned file's manifest entry is (re)written exactly when its extension is
allowed, it is not skipped by the hash check (`force` set or stored hash
differing), its text extraction succeeds with non-empty text, and chunking
yields at least one chunk. -/
theorem C7_idempotent_refresh (env : IngestEnv) (allowed : List String)
    (dir : List FSFile) (manifest0 : Manifest) (index0 : List IndexedPoint)
    (force : Bool)
    (hnodup : (dir.map FSFile.name).Nodup)
    (hsucc : (refresh_notes env allowed dir manifest0 index0 force).skipped = 0) :
    ((refresh_notes env allowed dir
        (refresh_notes env allowed dir manifest0 index0 force).manifest
        (refresh_notes env allowed dir manifest0 index0 force).index false).plan = []
      ∧ (refresh_notes env allowed dir
          (refresh_notes env allowed dir manifest0 index0 force).manifest
          (refresh_notes env allowed dir manifest0 index0 force).index false).ops = []
      ∧ (refresh_notes env allowed dir
          (refresh_notes env allowed dir manifest0 index0 force).manifest
          (refresh_notes env allowed dir manifest0 index0 force).index false).ingested = 0
      ∧ (refresh_notes env allowed dir
          (refresh_notes env allowed dir manifest0 index0 force).manifest
          (refresh_notes env allowed dir manifest0 index0 force).index false).manifest
        = (refresh_notes env allowed dir manifest0 index0 force).manifest)
    ∧ (∀ (force' : Bool) (m : Manifest) (i : List IndexedPoint) (f : FSFile)
        (h : String),
        (∃ e, IngestOp.manifestWrite f.name e ∈
          (ingestStep env allowed force'
            { manifest := m, index := i, ingested := 0, skipped := 0, ops := [] }
            f h).ops)
        ↔ (pyLower (pathSuffix f.name) ∈ allowed
            ∧ (force' = true ∨ manifestHashMatches m f.name h = false)
            ∧ ∃ raw, load_document env f = some raw ∧ raw ≠ ""
                ∧ pipelineChunkText env.rsplit (documentId env f) f.name raw ≠ [])) := by
  constructor
  · have hplan2 := second_plan_empty env allowed dir manifest0 index0 force hnodup hsucc
    refine ⟨hplan2, ?_, ?_, ?_⟩ <;>
      · simp only [refresh_notes] at hplan2 ⊢
        rw [hplan2]
        rfl
  · intro force' m i f h
    by_cases h1 : pyLower (pathSuffix f.name) ∈ allowed
    · by_cases h2 : force' = false ∧ manifestHashMatches m f.name h = true
      · rw [ingestStep_hash_skip env allowed force' _ f h h1 h2]
        apply iff_of_false
        · rintro ⟨e, he⟩
          simp at he
        · rintro ⟨-, hcond, -⟩
          rcases hcond with hft | hmf
          · rw [h2.1] at hft
            exact absurd hft (by simp)
          · rw [h2.2] at hmf
            exact absurd hmf (by simp)
      · cases hld : load_document env f with
        | none =>
            rw [ingestStep_load_fail env allowed force' _ f h h1 h2 hld]
            apply iff_of_false
            · rintro ⟨e, he⟩
              simp at he
            · rintro ⟨-, -, raw, hraw, -, -⟩
              exact absurd hraw (by simp)
        | some raw =>
            by_cases hraw : raw = ""
            · subst hraw
              rw [ingestStep_load_empty env allowed force' _ f h h1 h2 hld]
              apply iff_of_false
              · rintro ⟨e, he⟩
                simp at he
              · rintro ⟨-, -, raw', hraw', hne, -⟩
                exact hne (Option.some.inj hraw').symm
            · by_cases hrec : pipelineChunkText env.rsplit (documentId env f) f.name raw = []
              · rw [ingestStep_no_chunks env allowed force' _ f h raw h1 h2 hld hraw hrec]
                apply iff_of_false
                · rintro ⟨e, he⟩
                  simp at he
                · rintro ⟨-, -, raw', hraw', -, hne⟩
                  rw [← Option.some.inj hraw'] at hne
                  exact hne hrec
              · rw [ingestStep_success env allowed force' _ f h raw h1 h2 hld hraw hrec]
                apply iff_of_true
                · exact ⟨manifestEntryOf (documentId env f) h
                    (pipelineChunkText env.rsplit (documentId env f) f.name raw).length
                    (utf8Bytes f.content).length env.now, by simp⟩
                · exact ⟨h1, (not_skip_iff force' _).mp h2, raw, rfl, hraw, hrec⟩
    · rw [ingestStep_not_allowed env allowed force' _ f h h1]
      apply iff_of_false
      · rintro ⟨e, he⟩
        simp at he
      · rintro ⟨hmem, -, -⟩
        exact h1 hmem

/-- Shared concrete collaborator environment for the ingestion scenarios:
failing binary extractors, the identity recursive splitter. -/
def wIngestEnv : IngestEnv :=
  { extract := fun _ => none, rsplit := fun s => [s], now := "T0", notes_dir := "/notes" }

def wTxtFile : FSFile := { name := "b.txt", is_file := true, content := "hello world" }

def wPdfFile : FSFile := { name := "a.pdf", is_file := true, content := "v2" }

def wStaleEntry : ManifestEntry :=
  { document_id := "d0", hash := "0123456789abcdef0123456789abcdef",
    size_bytes := 2, total_chunks := 1, last_ingested_at := "T-1" }

/-- Counterexample for C7's parenthetical invariant: a changed `.pdf` whose
extraction fails is planned (its stored hash differs and `force` is unset),
yet after the refresh its manifest entry is not rewritten and no operation
was performed — so "an entry is rewritten iff the hash differs or force is
set" fails as stated. -/
theorem C7_counterexample :
    hash_file wPdfFile ≠ wStaleEntry.hash
    ∧ (refresh_notes wIngestEnv [".pdf"] [wPdfFile] [("a.pdf", wStaleEntry)] [] false).plan
        = [(wPdfFile, hash_file wPdfFile)]
    ∧ (refresh_notes wIngestEnv [".pdf"] [wPdfFile] [("a.pdf", wStaleEntry)] [] false).manifest
        = [("a.pdf", wStaleEntry)]
    ∧ (refresh_notes wIngestEnv [".pdf"] [wPdfFile] [("a.pdf", wStaleEntry)] [] false).ops
        = [] := by
  refine ⟨?_, rfl, rfl, rfl⟩
  have hv : hash_file wPdfFile = "108df5cb2ca76494bc62e0ddfdcfe0a6" := rfl
  rw [hv]
  decide

/-- Witness for C7: a one-file `.txt` corpus refreshed from an empty
manifest succeeds with nothing skipped, and the second refresh is a no-op. -/
theorem C7_idempotent_refresh_witness :
    (refresh_notes wIngestEnv [".txt"] [wTxtFile]
        (refresh_notes wIngestEnv [".txt"] [wTxtFile] [] [] false).manifest
        (refresh_notes wIngestEnv [".txt"] [wTxtFile] [] [] false).index false).plan = []
    ∧ (refresh_notes wIngestEnv [".txt"] [wTxtFile]
        (refresh_notes wIngestEnv [".txt"] [wTxtFile] [] [] false).manifest
        (refresh_notes wIngestEnv [".txt"] [wTxtFile] [] [] false).index false).ops = []
    ∧ (refresh_notes wIngestEnv [".txt"] [wTxtFile]
        (refresh_notes wIngestEnv [".txt"] [wTxtFile] [] [] false).manifest
        (refresh_notes wIngestEnv [".txt"] [wTxtFile] [] [] false).index false).ingested = 0
    ∧ (refresh_notes wIngestEnv [".txt"] [wTxtFile]
        (refresh_notes wIngestEnv [".txt"] [wTxtFile] [] [] false).manifest
        (refresh_notes wIngestEnv [".txt"] [wTxtFile] [] [] false).index false).manifest
      = (refresh_notes wIngestEnv [".txt"] [wTxtFile] [] [] false).manifest :=
  (C7_idempotent_refresh wIngestEnv [".txt"] [wTxtFile] [] [] false
    (by decide) rfl).1

/-- Witness for the amended C5: on the `# A` / `## B` sample, the markdown
strategy stamps every chunk with `'A > B'`, while the pipeline's own call
leaves every chunk without a section title. -/
theorem C5_markdown_section_titles_witness :
    (chunk_text (fun s => [s]) "doc" "note.md" "# A\n## B\nBody text under B"
        (some ".md") "markdown").all
      (fun r => r.section_title = some "A > B") = true
    ∧ (pipelineChunkText (fun s => [s]) "doc" "note.md"
        "# A\n## B\nBody text under B").all
      (fun r => r.section_title = none) = true := by
  constructor
  · rw [List.all_eq_true]
    intro r hr
    have h := C5_markdown_section_titles.2 (fun s => [s]) "doc" "note.md" "markdown"
      (Or.inl rfl) r hr
    simp [h]
  · rw [List.all_eq_true]
    intro r hr
    have h := C5_markdown_section_titles.1 (fun s => [s]) "doc" "note.md"
      "# A\n## B\nBody text under B" r hr
    simp [h]
